import Mathlib

/-!
Verification of `update_version.py`, a single-file utility that rewrites the
`version=` assignment in `plugin.cfg` from the output of `git describe`.
Strings are embedded as `List Char`; the Python string primitives used by the
script (`count`, `find`, `replace`, `strip`, `startswith`, slicing) are given
faithful executable counterparts, and the script's sequential control flow is
modelled with the external `git describe` call abstracted as an `Except`
value.
-/

namespace UpdateVersion

/-- Python `str.find` core: index of the first occurrence of `c` in the list,
as an `Option Nat` (`none` when `c` is absent). -/
def findAux (c : Char) : List Char → Option Nat
  | [] => none
  | x :: xs => if x == c then some 0 else (findAux c xs).map (· + 1)

/-- Python `s.find(c)` for a single character: the index of the first
occurrence of `c` in `s`, or `-1` when `c` does not occur. -/
def pyFind (c : Char) (s : List Char) : Int :=
  match findAux c s with
  | some i => (i : Int)
  | none => -1

/-- Python `s.replace(a, b)` for single characters: every occurrence of `a`
is replaced by `b`. -/
def replaceChar (a b : Char) (s : List Char) : List Char :=
  s.map fun c => if c == a then b else c

/-- The whitespace test of Python `str.strip()`. -/
def isPySpace (c : Char) : Bool :=
  c == ' ' || c == '\t' || c == '\n' || c == '\r' || c == '\x0b' || c == '\x0c'

/-- Python `s.strip()`: leading and trailing whitespace removed. -/
def pyStrip (s : List Char) : List Char :=
  ((s.dropWhile isPySpace).reverse.dropWhile isPySpace).reverse

/-- Lines 12-16 of `update_version.py`: if the described version contains two
or more hyphens, keep everything up to and including the first hyphen and
replace every hyphen of the remainder by a plus; otherwise return the string
unchanged.  `s[:i] + "-" + s[i+1:].replace("-", "+")` is modelled with
`List.take`/`List.drop`, and the `-1` sentinel of `str.find` is kept. -/
def normalization (s : List Char) : List Char :=
  if 2 ≤ s.count '-' then
    let first_index := pyFind '-' s
    if first_index ≠ -1 then
      s.take first_index.toNat ++ ['-'] ++ replaceChar '-' '+' (s.drop (first_index.toNat + 1))
    else s
  else s

/-- Python `line.startswith(p)`: `p` is an initial segment of the line. -/
def startswith : List Char → List Char → Bool
  | [], _ => true
  | _ :: _, [] => false
  | p :: ps, x :: xs => p == x && startswith ps xs

/-- The marker that selects the lines to rewrite. -/
def versionMarker : List Char := "version=".toList

/-- Line 21 of the script: the replacement line
`'version="' + git_describe + '"\n'`. -/
def versionLine (v : List Char) : List Char :=
  "version=\"".toList ++ v ++ "\"\n".toList

/-- Lines 19-21: a single iteration of the rewrite loop. -/
def rewriteLine (v line : List Char) : List Char :=
  if startswith versionMarker line then versionLine v else line

/-- Lines 18-22: the rewrite loop building `new_lines`. -/
def rewriteLines (v : List Char) (lines : List (List Char)) : List (List Char) :=
  lines.map (rewriteLine v)

/-- The ways the external `git describe` call can fail (not a repository, no
reachable tags, ...); the script never inspects the error, so one constructor
suffices. -/
inductive GitError where
  | describeFailed : GitError
deriving DecidableEq

/-- The whole script with the `subprocess.check_output(["git", "describe",
"--tags", "--abbrev=6"])` call abstracted as an `Except` value: when that
call raises, nothing after line 8 runs and the error propagates; when it
succeeds, its output is stripped, normalised, and the lines rewritten. -/
def runScript (lines : List (List Char)) (describe : Except GitError (List Char)) :
    Except GitError (List (List Char)) :=
  match describe with
  | .error e => .error e
  | .ok out => .ok (rewriteLines (normalization (pyStrip out)) lines)

/-- The contents of `plugin.cfg` after an invocation: the file is only
written (lines 24-25) when the script reaches them, so on an aborted run it
keeps its previous contents. -/
def finalFile (lines : List (List Char)) (describe : Except GitError (List Char)) :
    List (List Char) :=
  match runScript lines describe with
  | .error _ => lines
  | .ok ls => ls

/-! ### Helper lemmas -/

theorem findAux_eq_none {c : Char} {s : List Char} (h : findAux c s = none) :
    s.count c = 0 := by
  induction s with
  | nil => simp
  | cons x xs ih =>
    by_cases hx : x == c
    · simp [findAux, hx] at h
    · have hxs : findAux c xs = none := by
        cases hfa : findAux c xs with
        | none => rfl
        | some j => simp [findAux, hx, hfa] at h
      have hne : x ≠ c := by simpa using hx
      simp [List.count_cons, ih hxs, hne]

theorem findAux_eq_some {c : Char} {s : List Char} {i : Nat}
    (h : findAux c s = some i) :
    ∃ pre suf, s = pre ++ c :: suf ∧ pre.length = i ∧ pre.count c = 0 := by
  induction s generalizing i with
  | nil => simp [findAux] at h
  | cons x xs ih =>
    by_cases hx : x == c
    · have hxc : x = c := by simpa using hx
      have hi : i = 0 := by simp [findAux, hx] at h; omega
      exact ⟨[], xs, by simp [hxc], by simp [hi], by simp⟩
    · have hne : x ≠ c := by simpa using hx
      rw [findAux, if_neg hx] at h
      obtain ⟨j, hj, hji⟩ := Option.map_eq_some'.mp h
      obtain ⟨pre, suf, hs, hlen, hcnt⟩ := ih hj
      refine ⟨x :: pre, suf, by simp [hs], by simp [hlen, hji], ?_⟩
      simp [List.count_cons, hcnt, hne]

theorem findAux_isSome_of_count (c : Char) (s : List Char) (h : 1 ≤ s.count c) :
    ∃ i, findAux c s = some i := by
  cases hfa : findAux c s with
  | none => have := findAux_eq_none hfa; omega
  | some i => exact ⟨i, rfl⟩

theorem replaceChar_cons_eq {a b x : Char} (xs : List Char) (hx : x = a) :
    replaceChar a b (x :: xs) = b :: replaceChar a b xs := by
  simp [replaceChar, hx]

theorem replaceChar_cons_ne {a b x : Char} (xs : List Char) (hx : x ≠ a) :
    replaceChar a b (x :: xs) = x :: replaceChar a b xs := by
  simp [replaceChar, hx]

theorem count_replaceChar_eq_zero {a b : Char} (hab : a ≠ b) (s : List Char) :
    (replaceChar a b s).count a = 0 := by
  induction s with
  | nil => rfl
  | cons x xs ih =>
    by_cases hx : x = a
    · rw [replaceChar_cons_eq xs hx, List.count_cons, ih]
      simp [Ne.symm hab]
    · rw [replaceChar_cons_ne xs hx, List.count_cons, ih]
      simp [hx]

theorem count_replaceChar_target {a b : Char} (hab : a ≠ b) (s : List Char) :
    (replaceChar a b s).count b = s.count b + s.count a := by
  induction s with
  | nil => rfl
  | cons x xs ih =>
    by_cases hx : x = a
    · subst hx
      rw [replaceChar_cons_eq xs rfl, List.count_cons, List.count_cons,
        List.count_cons, ih]
      simp only [beq_iff_eq, beq_self_eq_true, if_true]
      rw [if_neg hab]
      omega
    · rw [replaceChar_cons_ne xs hx, List.count_cons, List.count_cons,
        List.count_cons, ih]
      by_cases hxb : x = b
      · simp [hxb, Ne.symm hx, Ne.symm hab]
        omega
      · simp [hx, hxb]

/-- Structure of `normalization` on an input with at least two hyphens:
the input splits as `pre ++ '-' :: suf` at the first hyphen, and the result
keeps `pre ++ ['-']` and replaces every hyphen of `suf` by a plus. -/
theorem normalization_decomp {s : List Char} (h2 : 2 ≤ s.count '-') :
    ∃ pre suf, s = pre ++ '-' :: suf ∧ pre.count '-' = 0 ∧
      pyFind '-' s = (pre.length : Int) ∧
      normalization s = pre ++ '-' :: replaceChar '-' '+' suf := by
  obtain ⟨i, hfa⟩ := findAux_isSome_of_count '-' s (by omega)
  obtain ⟨pre, suf, hs, hlen, hcnt⟩ := findAux_eq_some hfa
  have hfind : pyFind '-' s = (i : Int) := by simp [pyFind, hfa]
  refine ⟨pre, suf, hs, hcnt, by rw [hfind, hlen], ?_⟩
  have hne : pyFind '-' s ≠ -1 := by rw [hfind]; omega
  have htoNat : (pyFind '-' s).toNat = pre.length := by
    rw [hfind, ← hlen]; simp
  rw [normalization, if_pos h2]
  simp only [if_pos hne, htoNat]
  have htake : s.take pre.length = pre := by
    rw [hs]; exact List.take_left pre ('-' :: suf)
  have hdrop : s.drop (pre.length + 1) = suf := by
    rw [hs, ← List.singleton_append, ← List.append_assoc]
    have hlen1 : (pre ++ ['-']).length = pre.length + 1 := by simp
    rw [← hlen1]
    exact List.drop_left (pre ++ ['-']) suf
  rw [htake, hdrop]
  simp

theorem take_first_at (pre suf : List Char) (c : Char) :
    (pre ++ c :: suf).take (pre.length + 1) = pre ++ [c] := by
  rw [← List.singleton_append, ← List.append_assoc]
  have h1 : (pre ++ [c]).length = pre.length + 1 := by simp
  rw [← h1]
  exact List.take_left (pre ++ [c]) suf

theorem drop_after_first (pre suf : List Char) (c : Char) :
    (pre ++ c :: suf).drop (pre.length + 1) = suf := by
  rw [← List.singleton_append, ← List.append_assoc]
  have h1 : (pre ++ [c]).length = pre.length + 1 := by simp
  rw [← h1]
  exact List.drop_left (pre ++ [c]) suf

theorem normalization_of_lt (s : List Char) (h : s.count '-' < 2) :
    normalization s = s := by
  rw [normalization, if_neg (by omega)]

theorem count_normalization_of_ge {s : List Char} (h2 : 2 ≤ s.count '-') :
    (normalization s).count '-' = 1 := by
  obtain ⟨pre, suf, _, hcnt, _, hnorm⟩ := normalization_decomp h2
  have hmp : ('-' : Char) ≠ '+' := by decide
  rw [hnorm]
  simp [List.count_append, List.count_cons, hcnt, count_replaceChar_eq_zero hmp]

theorem getLast?_versionLine (v : List Char) :
    (versionLine v).getLast? = some '\n' := by
  have h2 : ("\"\n".toList : List Char) = ['"'] ++ ['\n'] := rfl
  rw [versionLine, h2, ← List.append_assoc, List.getLast?_concat]

/-! ### Claim theorems -/

/-- Claim C1: for every string with two or more hyphens, the result of
`normalization` is the prefix up to and including the first hyphen followed by
the remainder with every hyphen replaced by a plus; that rewritten remainder
contains zero hyphens and exactly (original hyphen count - 1) plus characters
more than it originally had. -/
theorem claim_C1 (s : List Char) (i : Nat) (h2 : 2 ≤ s.count '-')
    (hi : pyFind '-' s = (i : Int)) :
    normalization s = s.take (i + 1) ++ replaceChar '-' '+' (s.drop (i + 1)) ∧
    (replaceChar '-' '+' (s.drop (i + 1))).count '-' = 0 ∧
    (replaceChar '-' '+' (s.drop (i + 1))).count '+' =
      (s.drop (i + 1)).count '+' + (s.count '-' - 1) := by
  obtain ⟨pre, suf, hs, hcnt, hfind, hnorm⟩ := normalization_decomp h2
  have hip : i = pre.length := by
    rw [hfind] at hi
    exact_mod_cast hi.symm
  subst hip
  have htake : s.take (pre.length + 1) = pre ++ ['-'] := by
    rw [hs]
    exact take_first_at pre suf '-'
  have hdrop : s.drop (pre.length + 1) = suf := by
    rw [hs]
    exact drop_after_first pre suf '-'
  have hmp : ('-' : Char) ≠ '+' := by decide
  have hcs : s.count '-' = suf.count '-' + 1 := by
    rw [hs]
    simp [List.count_append, List.count_cons, hcnt]
  refine ⟨?_, ?_, ?_⟩
  · rw [hnorm, htake, hdrop]
    simp
  · rw [hdrop]
    exact count_replaceChar_eq_zero hmp suf
  · rw [hdrop, count_replaceChar_target hmp suf, hcs]
    omega

theorem claim_C1_witness :
    normalization ("a-b-c".toList) =
        ("a-b-c".toList).take (1 + 1) ++
          replaceChar '-' '+' (("a-b-c".toList).drop (1 + 1)) ∧
    (replaceChar '-' '+' (("a-b-c".toList).drop (1 + 1))).count '-' = 0 ∧
    (replaceChar '-' '+' (("a-b-c".toList).drop (1 + 1))).count '+' =
      (("a-b-c".toList).drop (1 + 1)).count '+' + (("a-b-c".toList).count '-' - 1) :=
  claim_C1 ("a-b-c".toList) 1 (by decide) (by decide)

/-- Claim C2: a string with strictly fewer than two hyphens is returned
unchanged by `normalization`. -/
theorem claim_C2 (s : List Char) (h : s.count '-' < 2) :
    normalization s = s :=
  normalization_of_lt s h

theorem claim_C2_witness : normalization ("v1.2.3".toList) = "v1.2.3".toList :=
  claim_C2 ("v1.2.3".toList) (by decide)

/-- Claim C3: `normalization` is idempotent on every string. -/
theorem claim_C3 (s : List Char) :
    normalization (normalization s) = normalization s := by
  by_cases h2 : 2 ≤ s.count '-'
  · have h1 := count_normalization_of_ge h2
    exact normalization_of_lt (normalization s) (by omega)
  · have h := normalization_of_lt s (by omega)
    rw [h, h]

/-- Claim C4: the rewrite pass preserves the number of lines and their order,
and every line that does not start with `version=` is passed through
unchanged. -/
theorem claim_C4 (v : List Char) (ls : List (List Char)) :
    (rewriteLines v ls).length = ls.length ∧
    ∀ i : Nat, ∀ line : List Char, ls[i]? = some line →
      startswith versionMarker line = false →
      (rewriteLines v ls)[i]? = some line := by
  constructor
  · simp [rewriteLines]
  · intro i line hline hm
    rw [rewriteLines, List.getElem?_map, hline]
    simp [rewriteLine, hm]

theorem claim_C4_witness :
    (rewriteLines ("x".toList) ["a\n".toList]).length = ["a\n".toList].length ∧
    (rewriteLines ("x".toList) ["a\n".toList])[0]? = some ("a\n".toList) :=
  ⟨(claim_C4 ("x".toList) ["a\n".toList]).1,
   (claim_C4 ("x".toList) ["a\n".toList]).2 0 ("a\n".toList) (by decide) (by decide)⟩

/-- Claim C5: every line starting with `version=` is replaced by
`version="<v>"` (with the code's trailing newline), each match receiving the
same new value. -/
theorem claim_C5 (v : List Char) (ls : List (List Char)) (i : Nat)
    (line : List Char) (hline : ls[i]? = some line)
    (hm : startswith versionMarker line = true) :
    (rewriteLines v ls)[i]? = some (versionLine v) := by
  rw [rewriteLines, List.getElem?_map, hline]
  simp [rewriteLine, hm]

theorem claim_C5_witness :
    (rewriteLines ("v9".toList) ["version=\"0\"\n".toList, "version=old\n".toList])[1]? =
      some (versionLine ("v9".toList)) :=
  claim_C5 ("v9".toList) ["version=\"0\"\n".toList, "version=old\n".toList] 1
    ("version=old\n".toList) (by decide) (by decide)

/-- Claim C6: a document with zero `version=` lines is rewritten to itself;
the pass is total and raises no error. -/
theorem claim_C6 (v : List Char) (ls : List (List Char))
    (h : ∀ line ∈ ls, startswith versionMarker line = false) :
    rewriteLines v ls = ls := by
  rw [rewriteLines]
  induction ls with
  | nil => rfl
  | cons x xs ih =>
    have hx := h x (by simp)
    rw [List.map_cons, ih fun line hl => h line (by simp [hl])]
    simp [rewriteLine, hx]

theorem claim_C6_witness :
    rewriteLines ("x".toList) ["[plugin]\n".toList, "name=\"p\"\n".toList] =
      ["[plugin]\n".toList, "name=\"p\"\n".toList] :=
  claim_C6 ("x".toList) ["[plugin]\n".toList, "name=\"p\"\n".toList] (by decide)

/-- Claim C7: when the describe query fails, the error propagates and the
file keeps exactly its previous contents; no write occurs. -/
theorem claim_C7 (ls : List (List Char)) (d : Except GitError (List Char))
    (e : GitError) (h : d = .error e) :
    runScript ls d = .error e ∧ finalFile ls d = ls := by
  subst h
  exact ⟨rfl, rfl⟩

theorem claim_C7_witness :
    runScript ["a\n".toList] (Except.error GitError.describeFailed) =
        Except.error GitError.describeFailed ∧
    finalFile ["a\n".toList] (Except.error GitError.describeFailed) =
      ["a\n".toList] :=
  claim_C7 ["a\n".toList] (Except.error GitError.describeFailed)
    GitError.describeFailed rfl

/-- Claim C8: end to end, describe output `v2.0.0-beta-14-gdeadbe` is
normalised to `v2.0.0-beta+14+gdeadbe` and a `version=` line is rewritten to
`version="v2.0.0-beta+14+gdeadbe"`. -/
theorem claim_C8 :
    normalization ("v2.0.0-beta-14-gdeadbe".toList) =
        "v2.0.0-beta+14+gdeadbe".toList ∧
    runScript ["[plugin]\n".toList, "version=\"0.1.0\"\n".toList]
        (Except.ok ("v2.0.0-beta-14-gdeadbe".toList)) =
      Except.ok
        ["[plugin]\n".toList, "version=\"v2.0.0-beta+14+gdeadbe\"\n".toList] := by
  exact ⟨by decide, rfl⟩

/-- Claim C9: a matched line is replaced by `version="<v>"` with an
unconditional trailing newline, independent of how the original line was
terminated. -/
theorem claim_C9 (v line : List Char)
    (hm : startswith versionMarker line = true) :
    rewriteLine v line = versionLine v ∧
    (versionLine v).getLast? = some '\n' := by
  constructor
  · rw [rewriteLine, if_pos hm]
  · exact getLast?_versionLine v

theorem claim_C9_witness :
    rewriteLine ("v1".toList) ("version=x".toList) = versionLine ("v1".toList) ∧
    (versionLine ("v1".toList)).getLast? = some '\n' :=
  claim_C9 ("v1".toList) ("version=x".toList) (by decide)

/-- Claim C10: under the precondition of at least two hyphens, the find call
cannot return `-1`, so the guarded branch always performs the replacement. -/
theorem claim_C10 (s : List Char) (h2 : 2 ≤ s.count '-') :
    pyFind '-' s ≠ -1 ∧
    normalization s =
      s.take (pyFind '-' s).toNat ++ ['-'] ++
        replaceChar '-' '+' (s.drop ((pyFind '-' s).toNat + 1)) := by
  obtain ⟨pre, suf, _, _, hfind, _⟩ := normalization_decomp h2
  have hne : pyFind '-' s ≠ -1 := by
    rw [hfind]
    omega
  refine ⟨hne, ?_⟩
  rw [normalization, if_pos h2]
  exact if_pos hne

theorem claim_C10_witness :
    pyFind '-' ("x-y-z".toList) ≠ -1 ∧
    normalization ("x-y-z".toList) =
      ("x-y-z".toList).take (pyFind '-' ("x-y-z".toList)).toNat ++ ['-'] ++
        replaceChar '-' '+'
          (("x-y-z".toList).drop ((pyFind '-' ("x-y-z".toList)).toNat + 1)) :=
  claim_C10 ("x-y-z".toList) (by decide)

end UpdateVersion
